import Mathlib

/-!
Verification of the Scrible RAG pipeline scripts.

This file shallowly embeds the core logic of the repository scripts
`production-setup.py`, `setup-production-system.py` and `setup-vector-db.py`:
the sentence chunker (`intelligent_chunking`), the document-insertion pipeline
(`process_document_async`, `add_documents`), the retrieval path
(`semantic_search`) and the answer-synthesis path (`answer_question`).

Text is modelled as `List Char`; Python strings operations are embedded by
structurally recursive Lean functions mirroring CPython semantics on the
character sequences involved.  External collaborators (the sentence-transformer
embedder and the FAISS index search) are passed in as function parameters;
`faiss.IndexIDMap.add_with_ids` is modelled as an append of `(id, vector)`
entries, which is what it does (it performs no duplicate-ID checking).
Similarity scores are modelled as rationals (`ℚ`): the claims under study
concern order and clamping of scores, never float rounding.
-/

/-- Embeds Python `str.isspace`-style membership used by `str.strip()`
(ASCII whitespace: space, tab, newline, carriage return, vertical tab,
form feed). -/
def pyIsSpace (c : Char) : Bool :=
  c == ' ' || c == '\t' || c == '\n' || c == '\r' || c == '\x0b' || c == '\x0c'

/-- Embeds Python `s.strip()`: drop whitespace from both ends. -/
def pyStrip (s : List Char) : List Char :=
  ((s.dropWhile pyIsSpace).reverse.dropWhile pyIsSpace).reverse

/-- Embeds Python `text.replace('\n', ' ')`. -/
def pyReplaceNl (s : List Char) : List Char :=
  s.map (fun c => if c = '\n' then ' ' else c)

/-- Helper for `splitSeps`: prepend a character to the first piece. -/
def consHead (c : Char) : List (List Char) → List (List Char)
  | [] => [[c]]
  | p :: ps => (c :: p) :: ps

/-- Embeds Python `text.split('. ')`: leftmost non-overlapping splits on the
two-character separator, keeping empty pieces (as `str.split` with an explicit
separator does). -/
def splitSeps : List Char → List (List Char)
  | [] => [[]]
  | '.' :: ' ' :: rest => [] :: splitSeps rest
  | c :: rest => consHead c (splitSeps rest)

/-- Embeds Python `". ".join(pieces)`. -/
def joinDotSpace (l : List (List Char)) : List Char :=
  List.intercalate ['.', ' '] l

/-- Embeds the `test_chunk` expression of `intelligent_chunking`
(`production-setup.py` line 63):
`test_chunk = current_chunk + ". " + sentence if current_chunk else sentence`. -/
def appendSent (cur s : List Char) : List Char :=
  if cur ≠ [] then cur ++ '.' :: ' ' :: s else s

/-- Embeds the Python slice `xs[-k:]`.  Note `xs[-0:]` is the whole list. -/
def pySliceLast (k : Nat) (xs : List (List Char)) : List (List Char) :=
  if k = 0 then xs else xs.drop (xs.length - k)

/-- Embeds `current_sentences[-overlap//50:] if len(current_sentences) > overlap//50 else []`
(`production-setup.py` line 77), with `k = overlap // 50`. -/
def overlapSel (k : Nat) (xs : List (List Char)) : List (List Char) :=
  if k < xs.length then pySliceLast k xs else []

/-- A chunk produced by `intelligent_chunking` (the `chunk_info` dict,
`production-setup.py` lines 67-73). -/
structure Chunk where
  text : List Char
  sentence_count : Nat
  char_count : Nat
  start_sentence : List Char
  end_sentence : List Char
deriving DecidableEq, Repr

/-- The loop state of `intelligent_chunking`: `current_chunk`,
`current_sentences` and the accumulated `chunks` list. -/
structure ChunkState where
  cur : List Char
  sents : List (List Char)
  chunks : List Chunk
deriving DecidableEq, Repr

/-- Builds the `chunk_info` dict from `current_chunk` / `current_sentences`
(`production-setup.py` lines 67-73 and 86-92). -/
def finChunk (cur : List Char) (sents : List (List Char)) : Chunk :=
  { text := pyStrip cur
    sentence_count := sents.length
    char_count := cur.length
    start_sentence := sents.headD []
    end_sentence := sents.getLastD [] }

/-- One iteration of the `for i, sentence in enumerate(sentences)` loop of
`intelligent_chunking` (`production-setup.py` lines 57-82).  Note that the
assignments `current_chunk = test_chunk` and `current_sentences.append(sentence)`
run unconditionally after the overflow branch, exactly as in the source. -/
def chunkStep (chunk_size overlap : Nat) (st : ChunkState) (raw : List Char) : ChunkState :=
  let sentence := pyStrip raw
  if sentence = [] then st
  else
    let test_chunk := appendSent st.cur sentence
    let st1 :=
      if chunk_size < test_chunk.length ∧ st.cur ≠ [] then
        let overlap_sentences := overlapSel (overlap / 50) st.sents
        { cur := joinDotSpace overlap_sentences
          sents := overlap_sentences
          chunks := st.chunks ++ [finChunk st.cur st.sents] }
      else st
    { cur := test_chunk, sents := st1.sents ++ [sentence], chunks := st1.chunks }

/-- The final-chunk emission after the sentence loop
(`production-setup.py` lines 84-93): `if current_chunk.strip():` append the
last `chunk_info`. -/
def chunkFinal (st : ChunkState) : List Chunk :=
  if pyStrip st.cur ≠ [] then st.chunks ++ [finChunk st.cur st.sents] else st.chunks

/-- Embeds `intelligent_chunking(text, chunk_size, overlap)`
(`production-setup.py` lines 49-95, identical in `setup-production-system.py`
lines 56-102): split the newline-collapsed text on `'. '`, fold the sentence
loop, then emit the final open chunk.  The repository calls it with the
defaults `chunk_size = 512`, `overlap = 64`. -/
def intelligent_chunking (text : List Char) (chunk_size overlap : Nat) : List Chunk :=
  chunkFinal
    ((splitSeps (pyReplaceNl text)).foldl (chunkStep chunk_size overlap) ⟨[], [], []⟩)

/-- The stripped, non-empty sentences actually consumed by the chunker loop
(empty/whitespace-only pieces are skipped by the `continue`). -/
def cleanOf (pieces : List (List Char)) : List (List Char) :=
  (pieces.map pyStrip).filter (fun s => !s.isEmpty)

/-- The sentence sequence of a text, as the chunker sees it. -/
def sentencesOf (text : List Char) : List (List Char) :=
  cleanOf (splitSeps (pyReplaceNl text))

/-- An input document, as the dicts handed to `process_document_async` /
`add_documents` (`id`, `name`, `type`, `content`). -/
structure Document where
  id : List Char
  name : List Char
  type : List Char
  content : List Char
deriving DecidableEq, Repr

/-- A chunk-metadata record appended by `process_document_async`
(`production-setup.py` lines 137-150; the timestamp field is omitted as it is
wall-clock bookkeeping, and `setup-production-system.py` additionally nests the
extractor metadata verbatim). -/
structure MetaRec where
  doc_id : List Char
  chunk_id : List Char
  chunk_index : Nat
  document_name : List Char
  document_type : List Char
  content : List Char
  sentence_count : Nat
  char_count : Nat
  embedding_id : Int
deriving DecidableEq, Repr

/-- The mutable state of `ProductionVectorDB`: `self.index` (a FAISS
`IndexIDMap`, `None` until the first insertion, modelled as the list of
`(external id, vector)` entries it holds) and `self.chunk_metadata`.
`α` is the embedding-vector type, abstract since the embedder is an
external collaborator. -/
structure SysState (α : Type) where
  index : Option (List (Int × α))
  chunk_metadata : List MetaRec
deriving Repr

/-- Embeds the f-string `f"{doc_id}_chunk_{i}"` (`production-setup.py` line 130). -/
def chunkIdOf (docId : List Char) (i : Nat) : List Char :=
  docId ++ "_chunk_".data ++ Nat.toDigits 10 i

/-- `chunk_ids = [f"{doc_id}_chunk_{i}" for i in range(len(chunks))]`. -/
def chunkIdsOf (docId : List Char) (chunks : List Chunk) : List (List Char) :=
  (List.range chunks.length).map (chunkIdOf docId)

/-- `numeric_ids = np.array([hash(chunk_id) % (2**31) for chunk_id in chunk_ids])`
(`production-setup.py` line 131).  Python's string `hash` is salted and
process-dependent, so it is a parameter `h`; Python `%` with a positive divisor
agrees with `Int.emod`. -/
def numericIdsOf (h : List Char → Int) (docId : List Char) (chunks : List Chunk) : List Int :=
  (chunkIdsOf docId chunks).map (fun cid => h cid % (2 ^ 31 : Int))

/-- The `(id, vector)` entries handed to `self.index.add_with_ids`
(`production-setup.py` line 134): embeddings are computed from the chunk texts
in order and paired with `numeric_ids` positionally. -/
def indexEntriesOf {α : Type} (h : List Char → Int) (encode : List Char → α)
    (docId : List Char) (chunks : List Chunk) : List (Int × α) :=
  (chunks.zip (numericIdsOf h docId chunks)).map (fun p => (p.2, encode p.1.text))

/-- The metadata records appended by the
`for i, (chunk, chunk_id) in enumerate(zip(chunks, chunk_ids))` loop
(`production-setup.py` lines 137-150). -/
def metaRecsOf (h : List Char → Int) (document : Document) (chunks : List Chunk) :
    List MetaRec :=
  ((chunks.zip (numericIdsOf h document.id chunks)).enum).map (fun p =>
    { doc_id := document.id
      chunk_id := chunkIdOf document.id p.1
      chunk_index := p.1
      document_name := document.name
      document_type := document.type
      content := p.2.1.text
      sentence_count := p.2.1.sentence_count
      char_count := p.2.1.char_count
      embedding_id := p.2.2 })

/-- Embeds `process_document_async` (`production-setup.py` lines 97-172,
`setup-production-system.py` lines 273-367): chunk with the default
`(512, 64)`, embed, create the index lazily if absent, `add_with_ids` the
batch (modelled as the append FAISS performs — `IndexIDMap.add_with_ids`
does no duplicate-ID checking), then append one metadata record per chunk.
Returns the new state and a success flag (`status == "completed"`).
The summary / key-point generation steps touch no index or metadata state
and are omitted. -/
def process_document_async {α : Type} (h : List Char → Int) (encode : List Char → α)
    (st : SysState α) (document : Document) : SysState α × Bool :=
  if document.content = [] then (st, false)
  else
    ({ index := some (st.index.getD []
         ++ indexEntriesOf h encode document.id (intelligent_chunking document.content 512 64))
       chunk_metadata := st.chunk_metadata
         ++ metaRecsOf h document (intelligent_chunking document.content 512 64) }, true)

/-- Embeds Python `text.split()` (no argument): split on whitespace runs,
discarding empty pieces.  `acc` holds the current word reversed. -/
def pyWordsAux : List Char → List Char → List (List Char)
  | [], acc => if acc = [] then [] else [acc.reverse]
  | c :: rest, acc =>
    if pyIsSpace c then
      if acc = [] then pyWordsAux rest [] else acc.reverse :: pyWordsAux rest []
    else pyWordsAux rest (c :: acc)

/-- Embeds Python `text.split()`. -/
def pyWords (s : List Char) : List (List Char) :=
  pyWordsAux s []

/-- Embeds Python `' '.join(words)`. -/
def joinSpace (l : List (List Char)) : List Char :=
  List.intercalate [' '] l

/-- The `for i in range(0, len(words), chunk_size - overlap)` loop of
`chunk_text` (`setup-vector-db.py` lines 76-81), expressed on the suffix of
`words` starting at index `i`.  Each iteration appends
`' '.join(words[i:i+chunk_size])` and breaks once `i + chunk_size >= len(words)`;
otherwise `i` advances by `step = chunk_size - overlap`.  `fuel` bounds the
iteration count (`words.length` suffices whenever `step ≥ 1`). -/
def chunkTextAux (chunk_size step : Nat) : Nat → List (List Char) → List (List Char)
  | 0, _ => []
  | fuel + 1, ws =>
    let chunk := joinSpace (ws.take chunk_size)
    if ws.length ≤ chunk_size then [chunk]
    else chunk :: chunkTextAux chunk_size step fuel (ws.drop step)

/-- Embeds `chunk_text(text, chunk_size, overlap)` (`setup-vector-db.py`
lines 71-83).  With no words the Python range is empty and no chunk is
emitted; with `overlap ≥ chunk_size` the Python step is non-positive (an empty
range, or a `ValueError` for step zero) — the repository only ever calls this
with `(500, 50)`. -/
def chunk_text (text : List Char) (chunk_size overlap : Nat) : List (List Char) :=
  let words := pyWords text
  if words = [] then []
  else if overlap < chunk_size then
    chunkTextAux chunk_size (chunk_size - overlap) words.length words
  else []

/-- A metadata record of `VectorDBSetup.document_metadata`
(`setup-vector-db.py` lines 49-56; note it stores no embedding ID). -/
structure VMetaRec where
  doc_id : List Char
  chunk_id : List Char
  chunk_index : Nat
  document_name : List Char
  document_type : List Char
  content : List Char
deriving DecidableEq, Repr

/-- The mutable state of `VectorDBSetup` (`setup-vector-db.py`). -/
structure VState (α : Type) where
  index : Option (List (Int × α))
  document_metadata : List VMetaRec
deriving Repr

/-- The `(doc, i, chunk)` triples enumerated by the nested loops of
`add_documents` (`setup-vector-db.py` lines 40-46), in order. -/
def docChunkPairs (documents : List Document) : List (Document × Nat × List Char) :=
  documents.flatMap (fun doc =>
    ((chunk_text doc.content 500 50).enum).map (fun p => (doc, p.1, p.2)))

/-- The `(id, vector)` entries handed to `add_with_ids` by `add_documents`
(`setup-vector-db.py` lines 58-67): `ids = [hash(doc_id) % (2**31) ...]`
zipped with the embeddings of `texts` in order. -/
def batchEntries {α : Type} (h : List Char → Int) (encode : List Char → α)
    (documents : List Document) : List (Int × α) :=
  ((docChunkPairs documents).map (fun q => h (chunkIdOf q.1.id q.2.1) % (2 ^ 31 : Int))).zip
    ((docChunkPairs documents).map (fun q => encode q.2.2))

/-- The metadata records appended by `add_documents`
(`setup-vector-db.py` lines 48-56). -/
def batchMetadata (documents : List Document) : List VMetaRec :=
  (docChunkPairs documents).map (fun q =>
    { doc_id := q.1.id
      chunk_id := chunkIdOf q.1.id q.2.1
      chunk_index := q.2.1
      document_name := q.1.name
      document_type := q.1.type
      content := q.2.2 })

/-- Embeds `add_documents(documents)` (`setup-vector-db.py` lines 32-69):
create the index lazily if absent, append all chunk metadata, then
`add_with_ids` the whole batch (modelled as the append FAISS performs; no
duplicate-ID check exists anywhere on this path). -/
def add_documents {α : Type} (h : List Char → Int) (encode : List Char → α)
    (st : VState α) (documents : List Document) : VState α :=
  { index := some (st.index.getD [] ++ batchEntries h encode documents)
    document_metadata := st.document_metadata ++ batchMetadata documents }

/-- A result dict built by `semantic_search` (`production-setup.py`
lines 226-234). -/
structure SearchResult where
  content : List Char
  document_name : List Char
  document_type : List Char
  chunk_index : Nat
  similarity_score : ℚ
  doc_id : List Char
  chunk_id : List Char
deriving DecidableEq, Repr

/-- The body of the inner metadata-resolution loop of `semantic_search`
(`production-setup.py` lines 221-235): skip the FAISS sentinel `-1`, then
linearly scan `chunk_metadata` for the first record whose `embedding_id`
equals the hit id (`break` after the first match); a hit with no matching
record contributes nothing. -/
def resolveHit (md : List MetaRec) (score : ℚ) (idx : Int) : Option SearchResult :=
  if idx = -1 then none
  else
    (md.find? (fun m => m.embedding_id == idx)).map (fun m =>
      { content := m.content
        document_name := m.document_name
        document_type := m.document_type
        chunk_index := m.chunk_index
        similarity_score := score
        doc_id := m.doc_id
        chunk_id := m.chunk_id })

/-- The `for score, idx in zip(scores[0], indices[0])` loop of
`semantic_search`: results are appended in the order the index returned the
hits. -/
def joinHits (md : List MetaRec) (hits : List (ℚ × Int)) : List SearchResult :=
  hits.filterMap (fun p => resolveHit md p.1 p.2)

/-- Embeds `semantic_search(query, k)` (`production-setup.py` lines 207-240,
`setup-production-system.py` lines 505-539).  `encode` is the query embedder
(encode + normalize) and `indexSearch` the FAISS `index.search` call, both
external collaborators that may fail; the Python `try/except` returns `[]` on
any exception, so both failure paths yield `[]`. -/
def semantic_search {α : Type} (encode : List Char → Except Unit α)
    (indexSearch : α → Nat → Except Unit (List (ℚ × Int)))
    (st : SysState α) (query : List Char) (k : Nat) : List SearchResult :=
  if st.index.isNone ∨ st.chunk_metadata.length = 0 then []
  else
    match encode query with
    | Except.error _ => []
    | Except.ok v =>
      match indexSearch v k with
      | Except.error _ => []
      | Except.ok hits => joinHits st.chunk_metadata hits

/-- A source attribution dict of `answer_question`
(`setup-production-system.py` lines 587-595). -/
structure SourceItem where
  document : List Char
  type : List Char
  similarity : ℚ
  excerpt : List Char
deriving DecidableEq, Repr

/-- The dict returned by `answer_question`. -/
structure AnswerResult where
  answer : List Char
  sources : List SourceItem
  confidence : ℚ
deriving DecidableEq, Repr

/-- The fixed no-results answer (`setup-production-system.py` line 549). -/
def noInfoAnswer : List Char :=
  "I don't have enough information in the knowledge base to answer this question.".data

/-- `chunk['content'][:200] + "..." if len(chunk['content']) > 200 else chunk['content']`
(`setup-production-system.py` line 592). -/
def excerptOf (content : List Char) : List Char :=
  if 200 < content.length then content.take 200 ++ "...".data else content

/-- The fallback answer text built without an OpenAI key
(`setup-production-system.py` lines 580-583). -/
def fallbackAnswer (question : List Char) (relevant_chunks : List SearchResult) : List Char :=
  let header :=
    "Based on the available sources, here are the most relevant excerpts related to '".data
      ++ question ++ "':\n\n".data
  ((relevant_chunks.take 3).enum).foldl (fun acc p =>
    acc ++ Nat.toDigits 10 (p.1 + 1) ++ ". From ".data ++ p.2.document_name
      ++ ": ".data ++ p.2.content.take 200 ++ "...\n\n".data) header

/-- Embeds `answer_question(question, context_limit)`
(`setup-production-system.py` lines 541-605) on the no-OpenAI-key path:
retrieve via `semantic_search`; an empty result set returns the fixed
insufficient-information answer with confidence `0.0`; otherwise the fallback
answer is built and `confidence = min(relevant_chunks[0]['similarity_score'], 1.0)`. -/
def answer_question {α : Type} (encode : List Char → Except Unit α)
    (indexSearch : α → Nat → Except Unit (List (ℚ × Int)))
    (st : SysState α) (question : List Char) (context_limit : Nat) : AnswerResult :=
  match semantic_search encode indexSearch st question context_limit with
  | [] => { answer := noInfoAnswer, sources := [], confidence := 0 }
  | r :: rs =>
    { answer := fallbackAnswer question (r :: rs)
      sources := (r :: rs).map (fun c =>
        { document := c.document_name
          type := c.document_type
          similarity := c.similarity_score
          excerpt := excerptOf c.content })
      confidence := min r.similarity_score 1 }

/-! ### Concrete inputs used by counterexamples and witnesses -/

/-- A three-sentence text whose chunking at `chunk_size = 10` exhibits the
dead overlap-reseed of `intelligent_chunking`. -/
def exText : List Char := "aaaa. bbbb. cccc".data

/-- A constant stand-in for Python's (salted, process-dependent) string hash. -/
def hZero : List Char → Int := fun _ => 0

/-- A constant hash returning `5`. -/
def hFive : List Char → Int := fun _ => 5

/-- A trivial embedder over the unit vector type. -/
def encodeU : List Char → Unit := fun _ => ()

/-- The state of a fresh `ProductionVectorDB`: no index, no metadata. -/
def initS : SysState Unit := ⟨none, []⟩

/-- A small document with non-empty content. -/
def tinyDoc : Document := ⟨"d".data, "n".data, "pdf".data, "aa".data⟩

/-- A document whose content is two 300-character sentences, so that
`intelligent_chunking` at the pipeline's fixed `chunk_size = 512` produces
two chunks. -/
def bigDoc : Document :=
  ⟨"dd".data, "Doc".data, "pdf".data,
    List.replicate 300 'a' ++ '.' :: ' ' :: List.replicate 300 'b'⟩

/-- A `VectorDBSetup` state whose index already holds an entry with external
id `5`. -/
def vWith5 : VState Unit := ⟨some [((5 : Int), ())], []⟩

/-- A one-chunk document for `add_documents`. -/
def helloDoc : Document := ⟨"d2".data, "Doc2".data, "txt".data, "hello world".data⟩

/-- A metadata record carrying embedding id `7`. -/
def exRec7 : MetaRec :=
  ⟨"d".data, "d_chunk_0".data, 0, "Doc".data, "pdf".data, "text body".data, 1, 9, 7⟩

/-- A populated system state: index holds one vector under id `7`, metadata
holds the matching record. -/
def exStateS : SysState Unit := ⟨some [((7 : Int), ())], [exRec7]⟩

/-- A query embedder that always succeeds. -/
def encodeOk : List Char → Except Unit Unit := fun _ => Except.ok ()

/-- An index search returning one hit whose id `3` resolves to no metadata
record. -/
def searchUnres : Unit → Nat → Except Unit (List (ℚ × Int)) :=
  fun _ _ => Except.ok [(1, 3)]

/-- An index search returning one hit with a negative score on id `7`. -/
def searchNeg : Unit → Nat → Except Unit (List (ℚ × Int)) :=
  fun _ _ => Except.ok [(-2, 7)]

/-- A failing query embedder (e.g. the model call raising). -/
def encodeFail : List Char → Except Unit Unit := fun _ => Except.error ()

/-- A failing index search (e.g. FAISS raising). -/
def searchFail : Unit → Nat → Except Unit (List (ℚ × Int)) :=
  fun _ _ => Except.error ()

/-- The retrieval result produced from `exRec7` with score `-2`. -/
def exNegResult : SearchResult :=
  ⟨"text body".data, "Doc".data, "pdf".data, 0, -2, "d".data, "d_chunk_0".data⟩

/-- A single over-long sentence (no `'. '` separator), for the C9 witness. -/
def wText : List Char := "aaaaaaaaaaaa".data

/-! ### Helper lemmas about `pyStrip` -/

theorem dropWhile_head_not (p : Char → Bool) (l : List Char) :
    ∀ c ∈ (List.dropWhile p l).head?, p c = false := by
  induction l with
  | nil => simp
  | cons a t ih =>
    intro c hc
    rw [List.dropWhile_cons] at hc
    by_cases hpa : p a
    · exact ih c (by simpa [hpa] using hc)
    · simp [hpa] at hc
      subst hc
      simpa using hpa

theorem dropWhile_getLast?_of_ne_nil (p : Char → Bool) (l : List Char)
    (h : List.dropWhile p l ≠ []) : (List.dropWhile p l).getLast? = l.getLast? := by
  induction l with
  | nil => simp at h
  | cons a t ih =>
    rw [List.dropWhile_cons] at h ⊢
    by_cases hpa : p a
    · simp only [hpa, if_true] at h ⊢
      have ht : t ≠ [] := by
        intro he
        subst he
        simp at h
      rw [ih h]
      cases t with
      | nil => exact absurd rfl ht
      | cons b t2 => rw [List.getLast?_cons_cons]
    · simp [hpa]

theorem head?_pyStrip (l : List Char) : ∀ c ∈ (pyStrip l).head?, pyIsSpace c = false := by
  intro c hc
  unfold pyStrip at hc
  rw [List.head?_reverse] at hc
  by_cases hne : List.dropWhile pyIsSpace ((List.dropWhile pyIsSpace l).reverse) = []
  · rw [hne] at hc
    simp at hc
  · rw [dropWhile_getLast?_of_ne_nil _ _ hne, List.getLast?_reverse] at hc
    exact dropWhile_head_not _ _ c hc

theorem getLast?_pyStrip (l : List Char) : ∀ c ∈ (pyStrip l).getLast?, pyIsSpace c = false := by
  intro c hc
  unfold pyStrip at hc
  rw [List.getLast?_reverse] at hc
  exact dropWhile_head_not _ _ c hc

theorem dropWhile_eq_self_of_head (p : Char → Bool) (l : List Char)
    (h : ∀ c ∈ l.head?, p c = false) : List.dropWhile p l = l := by
  cases l with
  | nil => rfl
  | cons a t =>
    have ha := h a (by simp)
    rw [List.dropWhile_cons, ha]
    simp

theorem pyStrip_eq_self (l : List Char) (h1 : ∀ c ∈ l.head?, pyIsSpace c = false)
    (h2 : ∀ c ∈ l.getLast?, pyIsSpace c = false) : pyStrip l = l := by
  unfold pyStrip
  rw [dropWhile_eq_self_of_head _ _ h1]
  have h3 : ∀ c ∈ l.reverse.head?, pyIsSpace c = false := by
    rw [List.head?_reverse]
    exact h2
  rw [dropWhile_eq_self_of_head _ _ h3, List.reverse_reverse]

theorem pyStrip_idem (l : List Char) : pyStrip (pyStrip l) = pyStrip l :=
  pyStrip_eq_self _ (head?_pyStrip l) (getLast?_pyStrip l)

/-! ### Helper lemmas about the chunker loop -/

theorem chunkStep_skip (cs ov : Nat) (st : ChunkState) (raw : List Char)
    (h : pyStrip raw = []) : chunkStep cs ov st raw = st := by
  simp [chunkStep, h]

theorem chunkStep_cur (cs ov : Nat) (st : ChunkState) (raw : List Char)
    (h : ¬ pyStrip raw = []) :
    (chunkStep cs ov st raw).cur = appendSent st.cur (pyStrip raw) := by
  simp only [chunkStep, if_neg h]

theorem cleanOf_cons_skip (p : List Char) (ps : List (List Char)) (h : pyStrip p = []) :
    cleanOf (p :: ps) = cleanOf ps := by
  simp [cleanOf, List.filter_cons, h]

theorem cleanOf_cons_keep (p : List Char) (ps : List (List Char)) (h : ¬ pyStrip p = []) :
    cleanOf (p :: ps) = pyStrip p :: cleanOf ps := by
  simp [cleanOf, List.filter_cons, h]

theorem foldl_chunkStep_cur (cs ov : Nat) :
    ∀ (pieces : List (List Char)) (st : ChunkState),
      (pieces.foldl (chunkStep cs ov) st).cur
        = (cleanOf pieces).foldl appendSent st.cur := by
  intro pieces
  induction pieces with
  | nil => intro st; rfl
  | cons p ps ih =>
    intro st
    by_cases hp : pyStrip p = []
    · rw [List.foldl_cons, chunkStep_skip _ _ _ _ hp, cleanOf_cons_skip _ _ hp, ih st]
    · rw [List.foldl_cons, ih (chunkStep cs ov st p), cleanOf_cons_keep _ _ hp,
        List.foldl_cons, chunkStep_cur cs ov st p hp]

theorem foldl_chunkStep_skip_all (cs ov : Nat) :
    ∀ (pieces : List (List Char)) (st : ChunkState),
      cleanOf pieces = [] → pieces.foldl (chunkStep cs ov) st = st := by
  intro pieces
  induction pieces with
  | nil => intro st _; rfl
  | cons p ps ih =>
    intro st h
    by_cases hp : pyStrip p = []
    · rw [List.foldl_cons, chunkStep_skip _ _ _ _ hp]
      exact ih st (by rw [← cleanOf_cons_skip _ _ hp]; exact h)
    · rw [cleanOf_cons_keep _ _ hp] at h
      exact absurd h (by simp)

theorem foldl_chunkStep_single (cs ov : Nat) :
    ∀ (pieces : List (List Char)) (s : List Char), cleanOf pieces = [s] →
      pieces.foldl (chunkStep cs ov) ⟨[], [], []⟩ = ⟨s, [s], []⟩ := by
  intro pieces
  induction pieces with
  | nil =>
    intro s h
    simp [cleanOf] at h
  | cons p ps ih =>
    intro s h
    by_cases hp : pyStrip p = []
    · rw [List.foldl_cons, chunkStep_skip _ _ _ _ hp]
      exact ih s (by rw [← cleanOf_cons_skip _ _ hp]; exact h)
    · rw [cleanOf_cons_keep _ _ hp] at h
      have h1 : pyStrip p = s := (List.cons.injEq _ _ _ _).mp h |>.1
      have h2 : cleanOf ps = [] := (List.cons.injEq _ _ _ _).mp h |>.2
      have hsne : ¬ s = [] := h1 ▸ hp
      rw [List.foldl_cons]
      have hstep : chunkStep cs ov ⟨[], [], []⟩ p = ⟨s, [s], []⟩ := by
        simp [chunkStep, hp, appendSent, h1, hsne]
      rw [hstep]
      exact foldl_chunkStep_skip_all cs ov ps _ h2

theorem mem_cleanOf (pieces : List (List Char)) (s : List Char) (h : s ∈ cleanOf pieces) :
    (∃ raw ∈ pieces, pyStrip raw = s) ∧ s ≠ [] := by
  unfold cleanOf at h
  have h1 := List.mem_of_mem_filter h
  have h2 := List.of_mem_filter h
  constructor
  · simpa using List.mem_map.mp h1
  · simpa using h2

theorem pyStrip_of_mem_cleanOf (pieces : List (List Char)) (s : List Char)
    (h : s ∈ cleanOf pieces) : pyStrip s = s := by
  obtain ⟨⟨raw, _, hraw⟩, _⟩ := mem_cleanOf pieces s h
  rw [← hraw, pyStrip_idem]

theorem appendSent_ne_nil (c s : List Char) (hs : s ≠ []) : appendSent c s ≠ [] := by
  unfold appendSent
  split
  · simp
  · exact hs

theorem pre_foldl_appendSent :
    ∀ (l : List (List Char)) (c : List Char), c ≠ [] → c <+: l.foldl appendSent c := by
  intro l
  induction l with
  | nil => intro c _; exact List.prefix_rfl
  | cons x t ih =>
    intro c hc
    rw [List.foldl_cons]
    have h1 : c <+: appendSent c x := by
      unfold appendSent
      rw [if_pos hc]
      exact List.prefix_append c _
    have h2 : appendSent c x ≠ [] := by
      unfold appendSent
      rw [if_pos hc]
      simp
    exact h1.trans (ih (appendSent c x) h2)

theorem infix_foldl_appendSent :
    ∀ (l : List (List Char)) (c s : List Char), s ∈ l → s ≠ [] →
      s <:+: l.foldl appendSent c := by
  intro l
  induction l with
  | nil => intro c s hs _; simp at hs
  | cons x t ih =>
    intro c s hs hne
    rw [List.foldl_cons]
    rcases List.mem_cons.mp hs with h | h
    · subst h
      have h1 : s <:+ appendSent c s := by
        unfold appendSent
        split
        · exact ⟨c ++ ['.', ' '], by simp⟩
        · exact List.suffix_rfl
      exact h1.isInfix.trans (pre_foldl_appendSent t _ (appendSent_ne_nil c s hne)).isInfix
    · exact ih (appendSent c x) s h hne

theorem head?_foldl_appendSent (l : List (List Char)) (c : List Char) (hc : c ≠ []) :
    (l.foldl appendSent c).head? = c.head? := by
  obtain ⟨t, ht⟩ := pre_foldl_appendSent l c hc
  rw [← ht, List.head?_append_of_ne_nil c hc]

theorem getLast?_foldl_appendSent :
    ∀ (l : List (List Char)) (c : List Char), (∀ x ∈ l, x ≠ []) → l ≠ [] →
      ∃ x ∈ l, (l.foldl appendSent c).getLast? = x.getLast? := by
  intro l
  induction l with
  | nil => intro c _ h; exact absurd rfl h
  | cons x t ih =>
    intro c hall hne
    rw [List.foldl_cons]
    by_cases ht : t = []
    · subst ht
      refine ⟨x, by simp, ?_⟩
      show (appendSent c x).getLast? = x.getLast?
      have hx : x ≠ [] := hall x (by simp)
      unfold appendSent
      split
      · calc (c ++ '.' :: ' ' :: x).getLast? = ((c ++ ['.', ' ']) ++ x).getLast? := by simp
          _ = x.getLast? := List.getLast?_append_of_ne_nil _ hx
      · rfl
    · obtain ⟨y, hy, hgl⟩ := ih (appendSent c x) (fun z hz => hall z (by simp [hz])) ht
      exact ⟨y, by simp [hy], hgl⟩

/-! ### Helper lemmas about the insertion pipeline -/

theorem length_numericIdsOf (h : List Char → Int) (docId : List Char) (chunks : List Chunk) :
    (numericIdsOf h docId chunks).length = chunks.length := by
  simp [numericIdsOf, chunkIdsOf]

theorem length_indexEntriesOf {α : Type} (h : List Char → Int) (encode : List Char → α)
    (docId : List Char) (chunks : List Chunk) :
    (indexEntriesOf h encode docId chunks).length = chunks.length := by
  simp [indexEntriesOf, length_numericIdsOf]

theorem length_metaRecsOf (h : List Char → Int) (document : Document) (chunks : List Chunk) :
    (metaRecsOf h document chunks).length = chunks.length := by
  simp [metaRecsOf, length_numericIdsOf]

theorem map_fst_indexEntriesOf {α : Type} (h : List Char → Int) (encode : List Char → α)
    (docId : List Char) (chunks : List Chunk) :
    (indexEntriesOf h encode docId chunks).map Prod.fst = numericIdsOf h docId chunks := by
  unfold indexEntriesOf
  rw [List.map_map]
  have hcomp : (Prod.fst ∘ fun p : Chunk × Int => (p.2, encode p.1.text)) = Prod.snd := rfl
  rw [hcomp, List.map_snd_zip]
  rw [length_numericIdsOf]

theorem map_embedding_id_metaRecsOf (h : List Char → Int) (document : Document)
    (chunks : List Chunk) :
    (metaRecsOf h document chunks).map (fun m => m.embedding_id)
      = numericIdsOf h document.id chunks := by
  unfold metaRecsOf
  rw [List.map_map]
  have hcomp :
      ((fun m : MetaRec => m.embedding_id) ∘ fun p : Nat × (Chunk × Int) =>
        ({ doc_id := document.id
           chunk_id := chunkIdOf document.id p.1
           chunk_index := p.1
           document_name := document.name
           document_type := document.type
           content := p.2.1.text
           sentence_count := p.2.1.sentence_count
           char_count := p.2.1.char_count
           embedding_id := p.2.2 } : MetaRec))
        = (fun q : Chunk × Int => q.2) ∘ Prod.snd := rfl
  rw [hcomp, ← List.map_map, List.enum_map_snd, List.map_snd_zip]
  rw [length_numericIdsOf]

/-! ### Helper lemmas about the retrieval join -/

theorem resolveHit_score (md : List MetaRec) (s : ℚ) (i : Int) (r : SearchResult)
    (h : resolveHit md s i = some r) : r.similarity_score = s := by
  unfold resolveHit at h
  by_cases hi : i = -1
  · simp [hi] at h
  · rw [if_neg hi] at h
    obtain ⟨m, _, hr⟩ := Option.map_eq_some'.mp h
    rw [← hr]

theorem scores_sublist (md : List MetaRec) :
    ∀ hits : List (ℚ × Int),
      List.Sublist ((joinHits md hits).map (fun r => r.similarity_score))
        (hits.map Prod.fst) := by
  intro hits
  induction hits with
  | nil => simp [joinHits]
  | cons p t ih =>
    rw [joinHits, List.filterMap_cons]
    cases hres : resolveHit md p.1 p.2 with
    | none =>
      rw [List.map_cons]
      exact (show List.Sublist _ _ from ih).cons p.1
    | some r =>
      have hs := resolveHit_score md p.1 p.2 r hres
      rw [List.map_cons, List.map_cons, hs]
      exact ih.cons₂ p.1

/-! ### Claim theorems -/

/-- C1: the size-bound claim fails on the code.  Chunking
`"aaaa. bbbb. cccc"` with `chunk_size = 10` emits a second chunk of 16
characters (above the 10-character budget) whose text consists of three
sentences, not one: the unconditional `current_chunk = test_chunk` keeps the
entire previous chunk inside the new one. -/
theorem C1_size_bound_violated :
    (intelligent_chunking exText 10 64).map Chunk.text
        = ["aaaa. bbbb".data, "aaaa. bbbb. cccc".data]
      ∧ 10 < ("aaaa. bbbb. cccc".data).length
      ∧ (splitSeps "aaaa. bbbb. cccc".data).length = 3 := by decide

/-- C2: the overlap claim fails on the code.  With `overlap = 64`
(one trailing sentence of overlap), the second chunk of
`"aaaa. bbbb. cccc"` at `chunk_size = 10` should begin with the re-joined
trailing sentence `"bbbb"`; instead it begins with the entire previous chunk
`"aaaa. bbbb"`, because the reseeded `current_chunk` is immediately
overwritten by `test_chunk`. -/
theorem C2_overlap_violated :
    (intelligent_chunking exText 10 64).map Chunk.text
        = ["aaaa. bbbb".data, "aaaa. bbbb. cccc".data]
      ∧ ¬ ("bbbb".data <+: "aaaa. bbbb. cccc".data)
      ∧ "aaaa. bbbb".data <+: "aaaa. bbbb. cccc".data := by decide

/-- C4 (amended): `add_documents` never raises on a duplicate external ID and
never leaves the index unchanged; it always appends the whole batch of
`(id, vector)` entries to whatever the index already holds — FAISS
`IndexIDMap.add_with_ids` performs no duplicate checking and the script checks
nothing either. -/
theorem C4_silent_append {α : Type} (h : List Char → Int) (encode : List Char → α)
    (st : VState α) (documents : List Document) :
    (add_documents h encode st documents).index
      = some (st.index.getD [] ++ batchEntries h encode documents) := rfl

/-- C4 counterexample: adding a batch whose external ID `5` is already present
in the index appends silently — afterwards the index holds two entries with
id `5` (so it changed, and no error was raised), contradicting the claimed
reject-and-leave-unchanged behaviour. -/
theorem C4_duplicate_appended :
    ((add_documents hFive encodeU vWith5 [helloDoc]).index.getD []).map Prod.fst = [5, 5]
      ∧ (vWith5.index.getD []).map Prod.fst = [5] := by decide

/-- C7: `semantic_search` on a fresh state (no insertion has happened, so
`self.index is None` and the metadata list is empty) returns `[]` for every
query, `k`, and collaborator behaviour, without any error; likewise whenever
the index is still `None`. -/
theorem C7_empty_search :
    (∀ (α : Type) (encode : List Char → Except Unit α)
        (indexSearch : α → Nat → Except Unit (List (ℚ × Int)))
        (query : List Char) (k : Nat),
        semantic_search encode indexSearch (⟨none, []⟩ : SysState α) query k = [])
      ∧ (∀ (α : Type) (encode : List Char → Except Unit α)
          (indexSearch : α → Nat → Except Unit (List (ℚ × Int)))
          (st : SysState α) (query : List Char) (k : Nat),
          st.index = none →
          semantic_search encode indexSearch st query k = []) := by
  constructor
  · intro α encode indexSearch query k
    simp [semantic_search]
  · intro α encode indexSearch st query k h
    simp [semantic_search, h]

/-- C7 witness: a state with metadata but an uninitialized index still yields
an empty, error-free search result. -/
theorem C7_empty_search_witness :
    semantic_search encodeOk searchUnres (⟨none, [exRec7]⟩ : SysState Unit) "q".data 3 = [] :=
  C7_empty_search.2 Unit encodeOk searchUnres ⟨none, [exRec7]⟩ "q".data 3 rfl

/-- C10: `semantic_search` never propagates a collaborator failure: if the
query embedder raises, or the index search raises, the `try/except` returns
`[]` with no error value. -/
theorem C10_no_throw :
    (∀ (α : Type) (encode : List Char → Except Unit α)
        (indexSearch : α → Nat → Except Unit (List (ℚ × Int)))
        (st : SysState α) (query : List Char) (k : Nat),
        encode query = Except.error () →
        semantic_search encode indexSearch st query k = [])
      ∧ (∀ (α : Type) (encode : List Char → Except Unit α)
          (indexSearch : α → Nat → Except Unit (List (ℚ × Int)))
          (st : SysState α) (query : List Char) (k : Nat) (v : α),
          encode query = Except.ok v → indexSearch v k = Except.error () →
          semantic_search encode indexSearch st query k = []) := by
  constructor
  · intro α encode indexSearch st query k h
    simp [semantic_search, h]
  · intro α encode indexSearch st query k v h1 h2
    simp [semantic_search, h1, h2]

/-- C10 witness: on a populated state, a raising embedder and a raising index
search each yield `[]`. -/
theorem C10_no_throw_witness :
    semantic_search encodeFail searchUnres exStateS "q".data 5 = []
      ∧ semantic_search encodeOk searchFail exStateS "q".data 5 = [] :=
  ⟨C10_no_throw.1 Unit encodeFail searchUnres exStateS "q".data 5 rfl,
   C10_no_throw.2 Unit encodeOk searchFail exStateS "q".data 5 () rfl rfl⟩

/-- C5 (amended): a search hit whose id resolves to no metadata record is
silently skipped — it contributes no entry to the result list and no error is
surfaced; under working collaborators `semantic_search` returns exactly the
metadata join of the hits. -/
theorem C5_silent_drop :
    (∀ (md : List MetaRec) (score : ℚ) (idx : Int) (rest : List (ℚ × Int)),
        idx ≠ -1 → md.find? (fun m => m.embedding_id == idx) = none →
        joinHits md ((score, idx) :: rest) = joinHits md rest)
      ∧ (∀ (α : Type) (encode : List Char → Except Unit α)
          (indexSearch : α → Nat → Except Unit (List (ℚ × Int)))
          (st : SysState α) (query : List Char) (k : Nat) (v : α) (hits : List (ℚ × Int)),
          st.index.isNone = false → st.chunk_metadata ≠ [] →
          encode query = Except.ok v → indexSearch v k = Except.ok hits →
          semantic_search encode indexSearch st query k = joinHits st.chunk_metadata hits) := by
  constructor
  · intro md score idx rest hidx hfind
    simp [joinHits, List.filterMap_cons, resolveHit, hidx, hfind]
  · intro α encode indexSearch st query k v hits h1 h2 h3 h4
    simp [semantic_search, h1, h2, h3, h4, List.length_eq_zero]

/-- C5 witness: an unresolvable hit `(1, 3)` is dropped from the join, and a
populated state with working collaborators returns exactly the join. -/
theorem C5_silent_drop_witness :
    joinHits [exRec7] [((1 : ℚ), (3 : Int)), (1, 7)] = joinHits [exRec7] [(1, 7)]
      ∧ semantic_search encodeOk searchUnres exStateS "q".data 5
          = joinHits exStateS.chunk_metadata [(1, 3)] :=
  ⟨C5_silent_drop.1 [exRec7] 1 3 [(1, 7)] (by decide) (by decide),
   C5_silent_drop.2 Unit encodeOk searchUnres exStateS "q".data 5 () [(1, 3)]
     (by decide) (by decide) rfl rfl⟩

/-- C5 counterexample: against a state whose metadata only knows embedding id
`7`, an index hit `(score 1, id 3)` (not the `-1` sentinel) yields an overall
result of `[]` — the hit is silently dropped and the caller sees a normal,
error-free empty result instead of any internal error. -/
theorem C5_hit_dropped :
    semantic_search encodeOk searchUnres exStateS "q".data 5 = []
      ∧ searchUnres () 5 = Except.ok [(1, 3)]
      ∧ exStateS.chunk_metadata.map (fun m => m.embedding_id) = [7] :=
  ⟨by decide, rfl, by decide⟩

/-- C6 (amended): `answer_question` reports confidence
`min(top similarity, 1.0)` — clamped from above only — for a non-empty
retrieval, and the fixed insufficient-information answer with confidence
exactly `0` for an empty retrieval. -/
theorem C6_confidence (α : Type) (encode : List Char → Except Unit α)
    (indexSearch : α → Nat → Except Unit (List (ℚ × Int)))
    (st : SysState α) (question : List Char) (context_limit : Nat) :
    (semantic_search encode indexSearch st question context_limit = [] →
        answer_question encode indexSearch st question context_limit
          = { answer := noInfoAnswer, sources := [], confidence := 0 })
      ∧ (∀ (r : SearchResult) (rs : List SearchResult),
          semantic_search encode indexSearch st question context_limit = r :: rs →
          (answer_question encode indexSearch st question context_limit).confidence
            = min r.similarity_score 1) := by
  constructor
  · intro h
    simp [answer_question, h]
  · intro r rs h
    simp [answer_question, h]

/-- C6 witness: with a top hit scoring `-2`, the reported confidence is
`min (-2) 1`; the clamp has no lower bound. -/
theorem C6_confidence_witness :
    (answer_question encodeOk searchNeg exStateS "q".data 5).confidence
      = min exNegResult.similarity_score 1 :=
  (C6_confidence Unit encodeOk searchNeg exStateS "q".data 5).2 exNegResult [] (by decide)

/-- C6 counterexample: a top similarity score of `-2` is reported as
confidence `-2`, which is negative — not the claimed clamp of the top score
into `[0, 1]` (that clamp would give `0`). -/
theorem C6_not_clamped_below :
    (answer_question encodeOk searchNeg exStateS "q".data 5).confidence = -2
      ∧ ((-2 : ℚ) < 0)
      ∧ max 0 (min (-2 : ℚ) 1) = 0
      ∧ ((-2 : ℚ) ≠ 0) := by decide

/-- C8: the retrieval engine emits results in exactly the order the index
returned the hits, with the scores copied unchanged: the emitted score list is
a sublist of the hit scores (no re-scoring, no re-sorting), it is
non-increasing whenever the index's scores are non-increasing, and when every
hit resolves it equals the hit score list outright. -/
theorem C8_ranking :
    (∀ (md : List MetaRec) (hits : List (ℚ × Int)),
        List.Sublist ((joinHits md hits).map (fun r => r.similarity_score))
          (hits.map Prod.fst))
      ∧ (∀ (md : List MetaRec) (hits : List (ℚ × Int)),
          List.Sorted (fun a b : ℚ => b ≤ a) (hits.map Prod.fst) →
          List.Sorted (fun a b : ℚ => b ≤ a)
            ((joinHits md hits).map (fun r => r.similarity_score)))
      ∧ (∀ (md : List MetaRec) (hits : List (ℚ × Int)),
          (∀ p ∈ hits, p.2 ≠ -1 ∧ (md.find? (fun m => m.embedding_id == p.2)).isSome = true) →
          (joinHits md hits).map (fun r => r.similarity_score) = hits.map Prod.fst) := by
  refine ⟨scores_sublist, ?_, ?_⟩
  · intro md hits hsort
    exact List.Pairwise.sublist (scores_sublist md hits) hsort
  · intro md hits hall
    induction hits with
    | nil => simp [joinHits]
    | cons p t ih =>
      obtain ⟨h1, h2⟩ := hall p (by simp)
      cases hres : resolveHit md p.1 p.2 with
      | none =>
        exfalso
        rw [resolveHit, if_neg h1] at hres
        rw [Option.map_eq_none'.mp hres] at h2
        simp at h2
      | some r =>
        have hs := resolveHit_score md p.1 p.2 r hres
        rw [joinHits, List.filterMap_cons, hres, List.map_cons, List.map_cons, hs]
        exact congrArg _ (ih (fun q hq => hall q (by simp [hq])))

/-- C8 witness: with both hits resolvable and scores `2 ≥ 1`, the emitted
scores equal the hit scores in order, and are non-increasing. -/
theorem C8_ranking_witness :
    ((joinHits [exRec7] [((2 : ℚ), (7 : Int)), (1, 7)]).map (fun r => r.similarity_score)
        = [((2 : ℚ), (7 : Int)), ((1 : ℚ), (7 : Int))].map Prod.fst)
      ∧ List.Sorted (fun a b : ℚ => b ≤ a)
          ((joinHits [exRec7] [((2 : ℚ), (7 : Int)), (1, 7)]).map
            (fun r => r.similarity_score)) :=
  ⟨C8_ranking.2.2 [exRec7] [(2, 7), (1, 7)] (by decide),
   C8_ranking.2.1 [exRec7] [(2, 7), (1, 7)] (by decide)⟩

/-- C3 (amended): after every successful document insertion the number of
index entries equals the number of metadata records (given the parity held
before), and the embedding IDs stored in the newly appended metadata records
are, in order, exactly the IDs under which the new vectors were appended to
the index.  (Uniqueness of embedding IDs is *not* guaranteed: no check of any
kind is performed — see `C3_duplicate_ids`.) -/
theorem C3_parity {α : Type} (h : List Char → Int) (encode : List Char → α)
    (st : SysState α) (document : Document)
    (hsucc : (process_document_async h encode st document).2 = true)
    (hpar : (st.index.getD []).length = st.chunk_metadata.length) :
    (((process_document_async h encode st document).1.index.getD []).length
        = (process_document_async h encode st document).1.chunk_metadata.length)
      ∧ ((process_document_async h encode st document).1.index.getD []).map Prod.fst
          = (st.index.getD []).map Prod.fst
            ++ ((process_document_async h encode st document).1.chunk_metadata.drop
                  st.chunk_metadata.length).map (fun m => m.embedding_id) := by
  by_cases hc : document.content = []
  · simp [process_document_async, hc] at hsucc
  · constructor
    · simp only [process_document_async, hc, if_false, Option.getD_some,
        List.length_append, length_indexEntriesOf, length_metaRecsOf, hpar]
    · simp only [process_document_async, hc, if_false, Option.getD_some,
        List.drop_left, List.map_append, map_fst_indexEntriesOf,
        map_embedding_id_metaRecsOf]

/-- C3 witness: inserting a small document into the fresh state preserves
index/metadata parity with matching embedding IDs. -/
theorem C3_parity_witness :
    (((process_document_async hZero encodeU initS tinyDoc).1.index.getD []).length
        = (process_document_async hZero encodeU initS tinyDoc).1.chunk_metadata.length)
      ∧ ((process_document_async hZero encodeU initS tinyDoc).1.index.getD []).map Prod.fst
          = (initS.index.getD []).map Prod.fst
            ++ ((process_document_async hZero encodeU initS tinyDoc).1.chunk_metadata.drop
                  initS.chunk_metadata.length).map (fun m => m.embedding_id) :=
  C3_parity hZero encodeU initS tinyDoc (by decide) (by decide)

set_option maxRecDepth 100000 in
/-- C3 counterexample: a successful insertion of a two-chunk document under a
hash that collides maps the two *distinct* chunk IDs `"dd_chunk_0"` and
`"dd_chunk_1"` to the same external integer ID `0`; both records are stored,
so the embedding ID `0` resolves to two records, contradicting the claimed
store-wide uniqueness (which the code never checks — Python's salted string
`hash` modulo `2**31` admits collisions and the same text can be reprocessed). -/
theorem C3_duplicate_ids :
    (process_document_async hZero encodeU initS bigDoc).2 = true
      ∧ ((process_document_async hZero encodeU initS bigDoc).1.chunk_metadata.map
            (fun m => m.embedding_id)) = [0, 0]
      ∧ ((process_document_async hZero encodeU initS bigDoc).1.chunk_metadata.map
            (fun m => m.chunk_id)) = ["dd_chunk_0".data, "dd_chunk_1".data]
      ∧ "dd_chunk_0".data ≠ "dd_chunk_1".data := by decide

/-- C9: the chunker never truncates a sentence.  Every stripped non-empty
sentence — in particular one longer than `chunk_size` — appears whole
(as a contiguous infix) in some emitted chunk, because the overflow check
`len(test_chunk) > chunk_size and current_chunk` only closes a chunk when a
prior non-empty accumulated chunk exists; and a text consisting of a single
over-long sentence is emitted as exactly that one whole chunk. -/
theorem C9_overlong :
    (∀ (text : List Char) (chunk_size overlap : Nat) (s : List Char),
        s ∈ sentencesOf text → chunk_size < s.length →
        ∃ c ∈ intelligent_chunking text chunk_size overlap, s <:+: c.text)
      ∧ (∀ (text : List Char) (chunk_size overlap : Nat) (s : List Char),
          sentencesOf text = [s] → chunk_size < s.length →
          (intelligent_chunking text chunk_size overlap).map (fun c => c.text) = [s]) := by
  constructor
  · intro text cs ov s hs hlen
    unfold sentencesOf at hs
    set pieces := splitSeps (pyReplaceNl text) with hpieces
    obtain ⟨hraw, hne⟩ := mem_cleanOf pieces s hs
    obtain ⟨s1, rest, hcl⟩ : ∃ s1 rest, cleanOf pieces = s1 :: rest := by
      cases hcc : cleanOf pieces with
      | nil => rw [hcc] at hs; simp at hs
      | cons a l => exact ⟨a, l, rfl⟩
    have hs1mem : s1 ∈ cleanOf pieces := by
      rw [hcl]; exact List.mem_cons_self s1 rest
    have hs1ne : s1 ≠ [] := (mem_cleanOf pieces s1 hs1mem).2
    have hs1strip : pyStrip s1 = s1 := pyStrip_of_mem_cleanOf pieces s1 hs1mem
    have hcur : ((pieces.foldl (chunkStep cs ov) ⟨[], [], []⟩)).cur
        = rest.foldl appendSent s1 := by
      rw [foldl_chunkStep_cur cs ov pieces ⟨[], [], []⟩, hcl, List.foldl_cons]
      rfl
    set stf := pieces.foldl (chunkStep cs ov) ⟨[], [], []⟩ with hstf
    have hhead : ∀ c ∈ stf.cur.head?, pyIsSpace c = false := by
      rw [hcur, head?_foldl_appendSent rest s1 hs1ne]
      intro c hc
      rw [← hs1strip] at hc
      exact head?_pyStrip s1 c hc
    have hlast : ∀ c ∈ stf.cur.getLast?, pyIsSpace c = false := by
      rw [hcur]
      by_cases hrest : rest = []
      · subst hrest
        intro c hc
        simp only [List.foldl_nil] at hc
        rw [← hs1strip] at hc
        exact getLast?_pyStrip s1 c hc
      · have hallrest : ∀ x ∈ rest, x ≠ [] := by
          intro x hx
          have hxm : x ∈ cleanOf pieces := by
            rw [hcl]; exact List.mem_cons_of_mem s1 hx
          exact (mem_cleanOf pieces x hxm).2
        obtain ⟨y, hy, hgl⟩ := getLast?_foldl_appendSent rest s1 hallrest hrest
        intro c hc
        rw [hgl] at hc
        have hymem : y ∈ cleanOf pieces := by
          rw [hcl]; exact List.mem_cons_of_mem s1 hy
        rw [← pyStrip_of_mem_cleanOf pieces y hymem] at hc
        exact getLast?_pyStrip y c hc
    have hstrip : pyStrip stf.cur = stf.cur := pyStrip_eq_self _ hhead hlast
    have hcurne : stf.cur ≠ [] := by
      intro h0
      obtain ⟨t, ht⟩ := pre_foldl_appendSent rest s1 hs1ne
      rw [hcur, ← ht] at h0
      exact hs1ne (List.append_eq_nil.mp h0).1
    have hinfix : s <:+: stf.cur := by
      rw [hcur]
      have hs2 : s ∈ s1 :: rest := by rw [← hcl]; exact hs
      rcases List.mem_cons.mp hs2 with hcase | hcase
      · exact hcase ▸ (pre_foldl_appendSent rest s1 hs1ne).isInfix
      · exact infix_foldl_appendSent rest s1 s hcase hne
    refine ⟨finChunk stf.cur stf.sents, ?_, ?_⟩
    · show finChunk stf.cur stf.sents ∈ intelligent_chunking text cs ov
      unfold intelligent_chunking
      rw [← hpieces, ← hstf]
      unfold chunkFinal
      rw [if_pos (by rw [hstrip]; exact hcurne)]
      exact List.mem_append_right _ (List.mem_singleton_self _)
    · show s <:+: pyStrip stf.cur
      rw [hstrip]
      exact hinfix
  · intro text cs ov s hs _
    unfold sentencesOf at hs
    have hfold := foldl_chunkStep_single cs ov (splitSeps (pyReplaceNl text)) s hs
    have hmem : s ∈ cleanOf (splitSeps (pyReplaceNl text)) := by
      rw [hs]; exact List.mem_singleton_self s
    have hss : pyStrip s = s := pyStrip_of_mem_cleanOf _ _ hmem
    have hsne : s ≠ [] := (mem_cleanOf _ _ hmem).2
    unfold intelligent_chunking
    rw [hfold]
    simp [chunkFinal, finChunk, hss, hsne]

/-- C9 witness: a text that is a single 12-character sentence chunked with
`chunk_size = 5` is emitted as one whole chunk. -/
theorem C9_overlong_witness :
    (intelligent_chunking wText 5 0).map (fun c => c.text) = [wText] :=
  C9_overlong.2 wText 5 0 wText (by decide) (by decide)
